import Mathlib

set_option maxHeartbeats 1000000

/-
Verification development for the MVCC coordinator of yb/tablet (MvccSnapshot,
MvccManager, ScopedWriteTransaction) together with the LogicalClock timestamp
authority it consumes.  The implementation files yb/tablet/mvcc.{h,cc} are not
part of the source tree here; only the reference test surface
yb/tablet/mvcc-test.cc is.  The definitions below are therefore modelled from
the specification, and wherever the prose of the specification is ambiguous the
model follows the concrete behaviour asserted by mvcc-test.cc, which exercises
every branch modelled here.  Timestamps (HybridTime) are abstract unsigned
logical values; we model them as Nat with the minimum sentinel 0.
-/

namespace YbMvcc

/-- Modelled from the spec: HybridTime, an abstract totally ordered unsigned
logical timestamp (missing yb/common hybrid time header). -/
abbrev HybridTime := Nat

/-- Modelled from the spec: the minimum sentinel timestamp ("beginning of time"). -/
def kMin : HybridTime := 0

/-- Modelled from the spec: the initial hybrid time, the first value the
logical clock hands out. -/
def kInitialHybridTime : HybridTime := 1

/-- Modelled from the spec: the maximum sentinel timestamp ("infinitely far in
the future"), the largest uint64 value. -/
def kMax : HybridTime := 18446744073709551615

/-- Modelled from the spec: the Timestamp Authority (missing
yb/server/logical_clock).  A logical clock holds the last value handed out;
Now returns a strictly larger value on every call. -/
structure LogicalClock where
  now_ : Nat
deriving DecidableEq

/-- Modelled from the spec: LogicalClock::CreateStartingAt, producing a clock
whose first Now() call returns t. -/
def LogicalClock.CreateStartingAt (t : HybridTime) : LogicalClock :=
  ⟨t - 1⟩

/-- Modelled from the spec: Now() — strictly increasing across calls; returns
the new value together with the advanced clock. -/
def LogicalClock.Now (c : LogicalClock) : HybridTime × LogicalClock :=
  (c.now_ + 1, ⟨c.now_ + 1⟩)

/-- Modelled from the spec: Update(t) — advances the clock so that it is at
least consistent with an externally observed timestamp. -/
def LogicalClock.Update (c : LogicalClock) (t : HybridTime) : LogicalClock :=
  ⟨max c.now_ t⟩

/-- Modelled from the spec: MvccSnapshot (missing yb/tablet/mvcc.h), an
immutable value with the watermark `all_committed_before_`, the explicit
exception list `committed_hybrid_times_` (kept in insertion order, as the
debug rendering shows it), and the upper bound `none_committed_at_or_after_`. -/
structure MvccSnapshot where
  all_committed_before_ : HybridTime
  committed_hybrid_times_ : List HybridTime
  none_committed_at_or_after_ : HybridTime
deriving DecidableEq

/-- Modelled from the spec: the default ("none committed") snapshot used for
the start-of-time case, positioned at the initial hybrid time so that a fresh
coordinator renders as committed = all T below the initial timestamp. -/
def MvccSnapshot.initial : MvccSnapshot :=
  ⟨kInitialHybridTime, [], kInitialHybridTime⟩

/-- Modelled from the spec: the point-in-time constructor taking a single
timestamp t: a clean snapshot with both bounds equal to t. -/
def MvccSnapshot.ofHybridTime (t : HybridTime) : MvccSnapshot :=
  ⟨t, [], t⟩

/-- Modelled from the spec: the degenerate "all committed" snapshot. -/
def MvccSnapshot.CreateSnapshotIncludingAllTransactions : MvccSnapshot :=
  ⟨kMax, [], kMax⟩

/-- Modelled from the spec: the degenerate "none committed" snapshot. -/
def MvccSnapshot.CreateSnapshotIncludingNoTransactions : MvccSnapshot :=
  ⟨kMin, [], kMin⟩

/-- Modelled from the spec: IsCommitted(ts) — below the watermark: committed;
at or above the upper bound: not committed; otherwise a membership test in the
exception list. -/
def MvccSnapshot.IsCommitted (s : MvccSnapshot) (ts : HybridTime) : Bool :=
  if ts < s.all_committed_before_ then true
  else if s.none_committed_at_or_after_ ≤ ts then false
  else s.committed_hybrid_times_.contains ts

/-- Modelled from the spec: MayHaveCommittedTransactionsAtOrAfter(ts) — true
iff ts lies below the upper bound. -/
def MvccSnapshot.MayHaveCommittedTransactionsAtOrAfter
    (s : MvccSnapshot) (ts : HybridTime) : Bool :=
  decide (ts < s.none_committed_at_or_after_)

/-- Modelled from the spec: MayHaveUncommittedTransactionsAtOrBefore(ts) —
true unless ts is below the watermark, or the exception list is exactly the
singleton holding the watermark itself and ts is at or below the watermark
(the degenerate case where the unique earliest transaction committed but the
watermark could not advance past it). -/
def MvccSnapshot.MayHaveUncommittedTransactionsAtOrBefore
    (s : MvccSnapshot) (ts : HybridTime) : Bool :=
  !(decide (ts < s.all_committed_before_) ||
    (s.committed_hybrid_times_ == [s.all_committed_before_] &&
      decide (ts ≤ s.all_committed_before_)))

/-- Modelled from the spec: is_clean — an empty exception list. -/
def MvccSnapshot.is_clean (s : MvccSnapshot) : Bool :=
  s.committed_hybrid_times_.isEmpty

/-- Modelled from the spec: the debug rendering, matching the literal strings
asserted by the reference tests. -/
def MvccSnapshot.render (s : MvccSnapshot) : String :=
  if s.committed_hybrid_times_.isEmpty then
    "MvccSnapshot[committed=\x7bT|T < " ++ toString s.all_committed_before_ ++ "\x7d]"
  else
    "MvccSnapshot[committed=\x7bT|T < " ++ toString s.all_committed_before_ ++
      " or (T in \x7b" ++
      String.intercalate (",") (s.committed_hybrid_times_.map toString) ++
      "\x7d)\x7d]"

/-- Modelled from the spec: folding a committed timestamp into a snapshot —
append to the exception list (insertion order) and raise the upper bound to at
least one past the committed timestamp. -/
def MvccSnapshot.AddCommittedHybridTime (s : MvccSnapshot) (ts : HybridTime) :
    MvccSnapshot :=
  { s with
    committed_hybrid_times_ := s.committed_hybrid_times_ ++ [ts],
    none_committed_at_or_after_ := max s.none_committed_at_or_after_ (ts + 1) }

/-- Modelled from the spec: the per-transaction phase of an in-flight
timestamp. -/
inductive TxnState where
  | InFlight
  | Applying
deriving DecidableEq

/-- Minimum of a list of timestamps (used for the earliest in-flight
transaction). -/
def listMin : List Nat → Option Nat
  | [] => none
  | t :: ts =>
    some (match listMin ts with
          | none => t
          | some u => min t u)

/-- Lookup of the phase of a timestamp in the in-flight association list. -/
def lookupState (l : List (Nat × TxnState)) (ts : Nat) : Option TxnState :=
  match l with
  | [] => none
  | (t, st) :: rest => if t = ts then some st else lookupState rest ts

/-- Removal of a timestamp from the in-flight association list. -/
def removeTs (l : List (Nat × TxnState)) (ts : Nat) : List (Nat × TxnState) :=
  l.filter (fun p => p.1 != ts)

/-- In-place phase change of a timestamp to Applying. -/
def setApplying (l : List (Nat × TxnState)) (ts : Nat) : List (Nat × TxnState) :=
  l.map (fun p => if p.1 = ts then (p.1, TxnState.Applying) else p)

/-- Modelled from the spec: MvccManager (missing yb/tablet/mvcc.cc), the
transaction coordinator: the timestamp authority it consumes, the live
snapshot, the in-flight set with phases, and the safe-time watermark
`no_new_transactions_at_or_before_`. -/
structure MvccManager where
  clock_ : LogicalClock
  cur_snap_ : MvccSnapshot
  hybrid_times_in_flight_ : List (HybridTime × TxnState)
  no_new_transactions_at_or_before_ : HybridTime
deriving DecidableEq

/-- Timestamps of the in-flight transactions. -/
def inFlightTimes (m : MvccManager) : List HybridTime :=
  m.hybrid_times_in_flight_.map Prod.fst

/-- Modelled from the spec: a fresh coordinator — initial snapshot, empty
in-flight set, safe time at the minimum sentinel. -/
def MvccManager.Create (c : LogicalClock) : MvccManager :=
  ⟨c, MvccSnapshot.initial, [], kMin⟩

/-- Modelled from the spec: TakeSnapshot — an independent copy of the live
snapshot. -/
def MvccManager.TakeSnapshot (m : MvccManager) : MvccSnapshot :=
  m.cur_snap_

/-- Modelled from the spec: the clean-time recomputation run after a commit of
the earliest in-flight transaction or a safe-time adjustment.  The new
watermark is the minimum of the earliest remaining in-flight timestamp and one
past the safe time (one past the safe time when nothing is in flight), and
exception-list entries subsumed by the new watermark are dropped. -/
def MvccManager.AdjustCleanTime (m : MvccManager) : MvccManager :=
  let newClean :=
    match listMin (inFlightTimes m) with
    | some e => min e (m.no_new_transactions_at_or_before_ + 1)
    | none => m.no_new_transactions_at_or_before_ + 1
  { m with
    cur_snap_ :=
      { m.cur_snap_ with
        all_committed_before_ := newClean,
        committed_hybrid_times_ :=
          m.cur_snap_.committed_hybrid_times_.filter (fun t => decide (newClean ≤ t)) } }

/-- Modelled from the spec: Begin() — obtains a fresh timestamp from the
authority, strictly greater than all previously issued and strictly greater
than the safe-time watermark (no transaction may begin at or before it),
and inserts it as InFlight. -/
def MvccManager.StartTransaction (m : MvccManager) : HybridTime × MvccManager :=
  let ts := max (m.clock_.now_ + 1) (m.no_new_transactions_at_or_before_ + 1)
  (ts,
   { m with
     clock_ := ⟨ts⟩,
     hybrid_times_in_flight_ :=
       m.hybrid_times_in_flight_ ++ [(ts, TxnState.InFlight)] })

/-- Modelled from the spec: BeginAtLatest() — like Begin but the obtained
timestamp additionally accounts for a clock uncertainty bound, modelled as a
nonnegative slack added to the next value of the authority. -/
def MvccManager.StartTransactionAtLatest (m : MvccManager) (slack : Nat) :
    HybridTime × MvccManager :=
  let ts := max (m.clock_.now_ + 1 + slack) (m.no_new_transactions_at_or_before_ + 1)
  (ts,
   { m with
     clock_ := ⟨m.clock_.now_ + 1⟩,
     hybrid_times_in_flight_ :=
       m.hybrid_times_in_flight_ ++ [(ts, TxnState.InFlight)] })

/-- Modelled from the spec: BeginAt(ts) for replay — inserts ts as InFlight
without consulting the authority; rejected with an ordinary (recoverable)
status when ts is at or below the safe-time watermark, already reported
committed, or already in flight. -/
def MvccManager.StartTransactionAtHybridTime (m : MvccManager) (ts : HybridTime) :
    Option MvccManager :=
  if ts ≤ m.no_new_transactions_at_or_before_ then none
  else if m.cur_snap_.IsCommitted ts then none
  else if (inFlightTimes m).contains ts then none
  else
    some { m with
           hybrid_times_in_flight_ :=
             m.hybrid_times_in_flight_ ++ [(ts, TxnState.InFlight)] }

/-- Modelled from the spec: StartApplying(ts) — InFlight to Applying in place;
a fatal contract violation (none) when ts is absent or already Applying. -/
def MvccManager.StartApplyingTransaction (m : MvccManager) (ts : HybridTime) :
    Option MvccManager :=
  match lookupState m.hybrid_times_in_flight_ ts with
  | some TxnState.InFlight =>
    some { m with
           hybrid_times_in_flight_ := setApplying m.hybrid_times_in_flight_ ts }
  | _ => none

/-- Modelled from the spec: the shared commit path of Commit and
OfflineCommit — fold ts into the snapshot, remove it from the in-flight set,
advance the safe-time watermark when committing online, and recompute the
clean time when ts was the earliest in-flight transaction. -/
def MvccManager.commitCore (m : MvccManager) (ts : HybridTime)
    (advanceSafeTime : Bool) : MvccManager :=
  let wasEarliest := listMin (inFlightTimes m) = some ts
  let m1 : MvccManager :=
    { m with
      cur_snap_ := m.cur_snap_.AddCommittedHybridTime ts,
      hybrid_times_in_flight_ := removeTs m.hybrid_times_in_flight_ ts,
      no_new_transactions_at_or_before_ :=
        if advanceSafeTime then max m.no_new_transactions_at_or_before_ ts
        else m.no_new_transactions_at_or_before_ }
  if wasEarliest then m1.AdjustCleanTime else m1

/-- Modelled from the spec: Commit(ts) — requires phase Applying (fatal when
ts is absent or still InFlight, and when ts lies beyond the clock);
advances the safe-time watermark to max(current, ts) and folds ts into the
snapshot. -/
def MvccManager.CommitTransaction (m : MvccManager) (ts : HybridTime) :
    Option MvccManager :=
  if m.clock_.now_ < ts then none
  else
    match lookupState m.hybrid_times_in_flight_ ts with
    | some TxnState.Applying => some (m.commitCore ts true)
    | _ => none

/-- Modelled from the spec: OfflineCommit(ts) — identical folding logic to
Commit but explicitly does not advance the safe-time watermark. -/
def MvccManager.OfflineCommitTransaction (m : MvccManager) (ts : HybridTime) :
    Option MvccManager :=
  match lookupState m.hybrid_times_in_flight_ ts with
  | some TxnState.Applying => some (m.commitCore ts false)
  | _ => none

/-- Modelled from the spec: Abort(ts) — requires phase InFlight (fatal when ts
is absent or Applying); removes ts from the in-flight set without touching the
snapshot or the watermarks. -/
def MvccManager.AbortTransaction (m : MvccManager) (ts : HybridTime) :
    Option MvccManager :=
  match lookupState m.hybrid_times_in_flight_ ts with
  | some TxnState.InFlight =>
    some { m with
           hybrid_times_in_flight_ := removeTs m.hybrid_times_in_flight_ ts }
  | _ => none

/-- Modelled from the spec: OfflineAdjustSafeTime(ts) — sets the safe-time
watermark to max(current, ts) directly and recomputes the clean time (the
reference tests show the snapshot moving on the adjustment). -/
def MvccManager.OfflineAdjustSafeTime (m : MvccManager) (ts : HybridTime) :
    MvccManager :=
  MvccManager.AdjustCleanTime
    { m with
      no_new_transactions_at_or_before_ :=
        max m.no_new_transactions_at_or_before_ ts }

/-- Modelled from the spec: GetMaxSafeTimeToReadAt() — before any transaction
has ever committed (safe time still at the minimum sentinel) the minimum
sentinel; else one less than the earliest in-flight timestamp when anything is
in flight; else the strictly increasing current time of the authority. -/
def MvccManager.GetMaxSafeTimeToReadAt (m : MvccManager) :
    HybridTime × MvccManager :=
  if m.no_new_transactions_at_or_before_ = kMin then (kMin, m)
  else
    match listMin (inFlightTimes m) with
    | some e => (e - 1, m)
    | none =>
      let p := m.clock_.Now
      (p.1, { m with clock_ := p.2 })

/-- Modelled from the spec: the predicate behind AreAllTransactionsCommitted
and the clean-snapshot waiter — with nothing in flight the clock decides (ts
strictly in the past of a fresh Now), otherwise the snapshot predicate
decides. -/
def MvccManager.AreAllTransactionsCommittedUnlocked (m : MvccManager)
    (ts : HybridTime) : Bool × MvccManager :=
  if (inFlightTimes m).isEmpty then
    let p := m.clock_.Now
    (decide (ts < p.1), { m with clock_ := p.2 })
  else
    (!(m.cur_snap_.MayHaveUncommittedTransactionsAtOrBefore ts), m)

/-- Modelled from the spec: WaitForCleanSnapshotAt(ts, deadline) — blocks
until the wait predicate holds or the deadline elapses.  The blocking is
abstracted: some snapshot when the predicate holds for the current state, none
(the distinguishable timeout status) when it does not and the deadline
elapses. -/
def MvccManager.WaitForCleanSnapshotAtHybridTime (m : MvccManager)
    (ts : HybridTime) : Option MvccSnapshot × MvccManager :=
  let p := m.AreAllTransactionsCommittedUnlocked ts
  (if p.1 then some p.2.cur_snap_ else none, p.2)

/-- Modelled from the spec: the scoped transaction handle — acquired by Begin,
carrying its timestamp and whether Commit was ever invoked through it. -/
structure ScopedWriteTransaction where
  hybrid_time : HybridTime
  committed : Bool
deriving DecidableEq

/-- Modelled from the spec: handle construction calls Begin. -/
def ScopedWriteTransaction.Create (m : MvccManager) :
    ScopedWriteTransaction × MvccManager :=
  let p := m.StartTransaction
  (⟨p.1, false⟩, p.2)

/-- Modelled from the spec: Commit on the handle delegates to the coordinator
and marks the handle committed. -/
def ScopedWriteTransaction.Commit (t : ScopedWriteTransaction)
    (m : MvccManager) : Option (ScopedWriteTransaction × MvccManager) :=
  match m.CommitTransaction t.hybrid_time with
  | some m2 => some ({ t with committed := true }, m2)
  | none => none

/-- Modelled from the spec: release-on-destruct — a no-op when the handle was
committed, otherwise Abort. -/
def ScopedWriteTransaction.release (t : ScopedWriteTransaction)
    (m : MvccManager) : Option MvccManager :=
  if t.committed then some m else m.AbortTransaction t.hybrid_time

/-- Operations of the coordinator API, for reasoning over whole histories.
Fatal contract violations abort a history (none); the recoverable rejection of
a replay Begin leaves the state unchanged, as the returned status does. -/
inductive MvccOp where
  | startTxn
  | startTxnAtLatest (slack : Nat)
  | startTxnAt (ts : HybridTime)
  | startApplying (ts : HybridTime)
  | commit (ts : HybridTime)
  | offlineCommit (ts : HybridTime)
  | abort (ts : HybridTime)
  | offlineAdjustSafeTime (ts : HybridTime)
  | clockUpdate (ts : HybridTime)
  | getMaxSafeTime
  | areAllCommitted (ts : HybridTime)
  | waitClean (ts : HybridTime)
deriving DecidableEq

/-- One step of the coordinator API. -/
def applyOp (m : MvccManager) : MvccOp → Option MvccManager
  | MvccOp.startTxn => some (m.StartTransaction).2
  | MvccOp.startTxnAtLatest slack => some (m.StartTransactionAtLatest slack).2
  | MvccOp.startTxnAt ts =>
    match m.StartTransactionAtHybridTime ts with
    | some m2 => some m2
    | none => some m
  | MvccOp.startApplying ts => m.StartApplyingTransaction ts
  | MvccOp.commit ts => m.CommitTransaction ts
  | MvccOp.offlineCommit ts => m.OfflineCommitTransaction ts
  | MvccOp.abort ts => m.AbortTransaction ts
  | MvccOp.offlineAdjustSafeTime ts => some (m.OfflineAdjustSafeTime ts)
  | MvccOp.clockUpdate ts => some { m with clock_ := m.clock_.Update ts }
  | MvccOp.getMaxSafeTime => some (m.GetMaxSafeTimeToReadAt).2
  | MvccOp.areAllCommitted ts => some (m.AreAllTransactionsCommittedUnlocked ts).2
  | MvccOp.waitClean ts => some (m.WaitForCleanSnapshotAtHybridTime ts).2

/-- A history of coordinator API calls. -/
def applyOps (m : MvccManager) : List MvccOp → Option MvccManager
  | [] => some m
  | op :: rest =>
    match applyOp m op with
    | some m2 => applyOps m2 rest
    | none => none

/-- The coordinator of the reference tests: a fresh manager over a logical
clock starting at the initial hybrid time. -/
def mInit : MvccManager :=
  MvccManager.Create (LogicalClock.CreateStartingAt kInitialHybridTime)

/-- History of the multiple-in-flight scenario: begin timestamps 1, 2, 3. -/
def beginThree : List MvccOp :=
  [MvccOp.startTxn, MvccOp.startTxn, MvccOp.startTxn]

/-- Applying then committing one timestamp. -/
def applyCommit (ts : HybridTime) : List MvccOp :=
  [MvccOp.startApplying ts, MvccOp.commit ts]

/-- Stage one of the out-of-order commit scenario: commit 2 out of 1,2,3. -/
def c2StageOne : List MvccOp := beginThree ++ applyCommit 2

/-- Stage two: additionally commit 3. -/
def c2StageTwo : List MvccOp := c2StageOne ++ applyCommit 3

/-- Stage three: additionally commit 1, the earliest. -/
def c2StageThree : List MvccOp := c2StageTwo ++ applyCommit 1

/-- History with an abort gap: begin 1,2,3, abort 1, then commit 2.  The
committed timestamp 2 is not the watermark value 1, yet the commit advances
the watermark and drops 2 from the exception list. -/
def c2AbortGap : List MvccOp :=
  beginThree ++ [MvccOp.abort 1] ++ applyCommit 2

/-- Offline-transaction history, first half: clock to 100, replay-begin 50,
offline-commit it. -/
def c5OfflinePart : List MvccOp :=
  [MvccOp.clockUpdate 100, MvccOp.startTxnAt 50,
   MvccOp.startApplying 50, MvccOp.offlineCommit 50]

/-- Offline-transaction history, second half: additionally adjust safe time
to 50. -/
def c5OfflineFull : List MvccOp :=
  c5OfflinePart ++ [MvccOp.offlineAdjustSafeTime 50]

/-- History where an aborted timestamp is later swept below the watermark:
begin 1 and 2, abort 1, commit 2. -/
def c6AbortSweep : List MvccOp :=
  [MvccOp.startTxn, MvccOp.startTxn, MvccOp.abort 1] ++ applyCommit 2

/-- The scoped-transaction scenario: two handles; the first applies and
commits, the second is released (and hence aborted) without commit. -/
def c6ScopedResult : Option MvccManager :=
  let p1 := ScopedWriteTransaction.Create mInit
  let p2 := ScopedWriteTransaction.Create p1.2
  (p2.2.StartApplyingTransaction p1.1.hybrid_time).bind (fun ma =>
    (p1.1.Commit ma).bind (fun pc =>
      ScopedWriteTransaction.release p2.1 pc.2))

/-- History leaving one in-flight transaction with nothing ever committed:
begin 1 and 2, abort 1. -/
def c7AbortOnly : List MvccOp :=
  [MvccOp.startTxn, MvccOp.startTxn, MvccOp.abort 1]

/-- Scenario E stage one: t1, t2, t3 in flight and t1 committed. -/
def c8StageOne : List MvccOp := beginThree ++ applyCommit 1

/-- Scenario E stage two: additionally t3 committed. -/
def c8StageTwo : List MvccOp := c8StageOne ++ applyCommit 3

/-- Scenario E stage three: additionally t2 committed. -/
def c8StageThree : List MvccOp := c8StageTwo ++ applyCommit 2

/-- The offline clean-time-coalescing history of the reference test: clock to
20, replay-begin 10 and 15, adjust safe time to 15, offline-commit 15 then
10. -/
def c10Trace : List MvccOp :=
  [MvccOp.clockUpdate 20, MvccOp.startTxnAt 10, MvccOp.startTxnAt 15,
   MvccOp.offlineAdjustSafeTime 15,
   MvccOp.startApplying 15, MvccOp.offlineCommit 15,
   MvccOp.startApplying 10, MvccOp.offlineCommit 10]

/-- Concrete coordinator with one InFlight and one Applying transaction, used
to witness the fatal-transition theorem. -/
def mW4 : MvccManager :=
  ⟨⟨5⟩, MvccSnapshot.initial, [(1, TxnState.InFlight), (2, TxnState.Applying)], 0⟩

/-- Concrete coordinator holding an Applying replayed transaction at 50, used
to witness the offline-commit frame theorem. -/
def mW5 : MvccManager :=
  ⟨⟨100⟩, MvccSnapshot.initial, [(50, TxnState.Applying)], 0⟩

/-- Concrete coordinator holding a single InFlight transaction, used to
witness the abort frame theorem. -/
def mW6 : MvccManager :=
  ⟨⟨3⟩, MvccSnapshot.initial, [(1, TxnState.InFlight)], 0⟩

/-- Concrete coordinator with a nonminimal safe time and nothing in flight,
used to witness the safe-time-to-read theorem. -/
def mW7 : MvccManager :=
  ⟨⟨5⟩, ⟨2, [], 2⟩, [], 1⟩

/-- Concrete mid-scenario coordinator (after begin 1,2,3 and start-applying
2), used to witness the commit-coalescing theorem. -/
def mW2 : MvccManager :=
  ⟨⟨3⟩, MvccSnapshot.initial,
   [(1, TxnState.InFlight), (2, TxnState.Applying), (3, TxnState.InFlight)], 0⟩

/-- History for the monotonicity witness: begin 1, apply, commit. -/
def c9OpsA : List MvccOp := [MvccOp.startTxn] ++ applyCommit 1

/-- Second history for the monotonicity witness: one further begin. -/
def c9OpsB : List MvccOp := [MvccOp.startTxn]

/-- The coordinator state reached by the first monotonicity-witness history. -/
def mC9a : MvccManager := ⟨⟨1⟩, ⟨2, [], 2⟩, [], 1⟩

/-- The coordinator state reached by the second monotonicity-witness
history. -/
def mC9b : MvccManager := ⟨⟨2⟩, ⟨2, [], 2⟩, [(2, TxnState.InFlight)], 1⟩

/-- The coordinator invariant: the snapshot watermark is at most one past the
safe-time watermark, and no in-flight timestamp lies below the snapshot
watermark. -/
def Inv (m : MvccManager) : Prop :=
  m.cur_snap_.all_committed_before_ ≤ m.no_new_transactions_at_or_before_ + 1 ∧
  ∀ t ∈ inFlightTimes m, m.cur_snap_.all_committed_before_ ≤ t

theorem listMin_eq_none {l : List Nat} : listMin l = none ↔ l = [] := by
  cases l with
  | nil => simp [listMin]
  | cons a l => simp [listMin]

theorem listMin_le {l : List Nat} {e : Nat} (h : listMin l = some e) :
    ∀ t ∈ l, e ≤ t := by
  induction l generalizing e with
  | nil => simp [listMin] at h
  | cons a l ih =>
    intro t ht
    simp only [listMin, Option.some.injEq] at h
    cases hm : listMin l with
    | none =>
      rw [hm] at h
      dsimp only at h
      subst h
      rcases List.mem_cons.mp ht with h3 | h3
      · omega
      · exact absurd h3 (by simp [listMin_eq_none.mp hm])
    | some u =>
      rw [hm] at h
      dsimp only at h
      subst h
      rcases List.mem_cons.mp ht with h3 | h3
      · rw [h3]; exact min_le_left _ _
      · exact le_trans (min_le_right a u) (ih hm t h3)

theorem listMin_mem {l : List Nat} {e : Nat} (h : listMin l = some e) : e ∈ l := by
  induction l generalizing e with
  | nil => simp [listMin] at h
  | cons a l ih =>
    simp only [listMin, Option.some.injEq] at h
    cases hm : listMin l with
    | none =>
      rw [hm] at h
      dsimp only at h
      subst h
      exact List.mem_cons_self a l
    | some u =>
      rw [hm] at h
      dsimp only at h
      subst h
      rcases le_total a u with hh | hh
      · rw [min_eq_left hh]; exact List.mem_cons_self a l
      · rw [min_eq_right hh]; exact List.mem_cons_of_mem a (ih hm)

theorem lookupState_removeTs (l : List (Nat × TxnState)) (ts : Nat) :
    lookupState (removeTs l ts) ts = none := by
  induction l with
  | nil => rfl
  | cons p l ih =>
    by_cases hp : p.1 = ts
    · simpa [removeTs, List.filter_cons, hp] using ih
    · simpa [removeTs, List.filter_cons, hp, lookupState] using ih

theorem map_fst_setApplying (l : List (Nat × TxnState)) (ts : Nat) :
    (setApplying l ts).map Prod.fst = l.map Prod.fst := by
  induction l with
  | nil => rfl
  | cons p l ih =>
    by_cases hp : p.1 = ts <;> simp [setApplying, hp, ih] <;>
      simpa [setApplying] using ih

theorem mem_map_fst_of_filter {l : List (Nat × TxnState)}
    {p : Nat × TxnState → Bool} {t : Nat}
    (h : t ∈ (l.filter p).map Prod.fst) : t ∈ l.map Prod.fst := by
  rcases List.mem_map.mp h with ⟨q, hq, hq2⟩
  exact List.mem_map.mpr ⟨q, List.mem_of_mem_filter hq, hq2⟩

theorem adjust_nntab (m : MvccManager) :
    (m.AdjustCleanTime).no_new_transactions_at_or_before_ =
      m.no_new_transactions_at_or_before_ := rfl

theorem adjust_in_flight (m : MvccManager) :
    (m.AdjustCleanTime).hybrid_times_in_flight_ = m.hybrid_times_in_flight_ := rfl

theorem adjust_clock (m : MvccManager) :
    (m.AdjustCleanTime).clock_ = m.clock_ := rfl

theorem adjust_acb (m : MvccManager) :
    (m.AdjustCleanTime).cur_snap_.all_committed_before_ =
      match listMin (inFlightTimes m) with
      | some e => min e (m.no_new_transactions_at_or_before_ + 1)
      | none => m.no_new_transactions_at_or_before_ + 1 := rfl

theorem adjust_acb_le (m : MvccManager) :
    (m.AdjustCleanTime).cur_snap_.all_committed_before_ ≤
      m.no_new_transactions_at_or_before_ + 1 := by
  rw [adjust_acb]
  cases hm : listMin (inFlightTimes m) with
  | none => exact le_refl _
  | some e => exact min_le_right _ _

theorem adjust_acb_le_inflight (m : MvccManager) :
    ∀ t ∈ inFlightTimes m,
      (m.AdjustCleanTime).cur_snap_.all_committed_before_ ≤ t := by
  intro t ht
  rw [adjust_acb]
  cases hm : listMin (inFlightTimes m) with
  | none => rw [listMin_eq_none] at hm; rw [hm] at ht; simp at ht
  | some e => exact le_trans (min_le_left _ _) (listMin_le hm t ht)

theorem adjust_acb_ge (m : MvccManager)
    (h1 : m.cur_snap_.all_committed_before_ ≤ m.no_new_transactions_at_or_before_ + 1)
    (h2 : ∀ t ∈ inFlightTimes m, m.cur_snap_.all_committed_before_ ≤ t) :
    m.cur_snap_.all_committed_before_ ≤
      (m.AdjustCleanTime).cur_snap_.all_committed_before_ := by
  rw [adjust_acb]
  cases hm : listMin (inFlightTimes m) with
  | none => exact h1
  | some e => exact le_min (h2 e (listMin_mem hm)) h1

theorem adjust_step (m : MvccManager) (hInv : Inv m) :
    Inv (m.AdjustCleanTime) ∧
    m.cur_snap_.all_committed_before_ ≤
      (m.AdjustCleanTime).cur_snap_.all_committed_before_ := by
  refine ⟨⟨?_, ?_⟩, adjust_acb_ge m hInv.1 hInv.2⟩
  · rw [adjust_nntab]; exact adjust_acb_le m
  · intro t ht
    have ht2 : t ∈ inFlightTimes m := by
      simpa [inFlightTimes, adjust_in_flight] using ht
    exact adjust_acb_le_inflight m t ht2

theorem Inv_of_same (m m2 : MvccManager)
    (hs : m2.cur_snap_ = m.cur_snap_)
    (hf : m2.hybrid_times_in_flight_ = m.hybrid_times_in_flight_)
    (hn : m2.no_new_transactions_at_or_before_ = m.no_new_transactions_at_or_before_)
    (hInv : Inv m) :
    Inv m2 ∧
    m.cur_snap_.all_committed_before_ ≤ m2.cur_snap_.all_committed_before_ := by
  refine ⟨⟨?_, ?_⟩, ?_⟩
  · rw [hs, hn]; exact hInv.1
  · intro t ht
    rw [hs]
    exact hInv.2 t (by simpa [inFlightTimes, hf] using ht)
  · rw [hs]

theorem Inv_init (c : LogicalClock) : Inv (MvccManager.Create c) := by
  constructor
  · simp [MvccManager.Create, MvccSnapshot.initial, kInitialHybridTime, kMin]
  · intro t ht
    simp [inFlightTimes, MvccManager.Create] at ht

theorem commitCore_in_flight (m : MvccManager) (ts : HybridTime) (adv : Bool) :
    (m.commitCore ts adv).hybrid_times_in_flight_ =
      removeTs m.hybrid_times_in_flight_ ts := by
  unfold MvccManager.commitCore
  dsimp only
  split <;> rfl

theorem commitCore_clock (m : MvccManager) (ts : HybridTime) (adv : Bool) :
    (m.commitCore ts adv).clock_ = m.clock_ := by
  unfold MvccManager.commitCore
  dsimp only
  split <;> rfl

theorem commitCore_nntab_false (m : MvccManager) (ts : HybridTime) :
    (m.commitCore ts false).no_new_transactions_at_or_before_ =
      m.no_new_transactions_at_or_before_ := by
  unfold MvccManager.commitCore
  dsimp only
  split <;> rfl

theorem commitCore_nntab_true (m : MvccManager) (ts : HybridTime) :
    (m.commitCore ts true).no_new_transactions_at_or_before_ =
      max m.no_new_transactions_at_or_before_ ts := by
  unfold MvccManager.commitCore
  dsimp only
  split <;> rfl

theorem commitCore_step (m : MvccManager) (ts : HybridTime) (adv : Bool)
    (hInv : Inv m) :
    Inv (m.commitCore ts adv) ∧
    m.cur_snap_.all_committed_before_ ≤
      (m.commitCore ts adv).cur_snap_.all_committed_before_ := by
  obtain ⟨h1, h2⟩ := hInv
  have hInv1 : Inv
      { m with
        cur_snap_ := m.cur_snap_.AddCommittedHybridTime ts,
        hybrid_times_in_flight_ := removeTs m.hybrid_times_in_flight_ ts,
        no_new_transactions_at_or_before_ :=
          if adv then max m.no_new_transactions_at_or_before_ ts
          else m.no_new_transactions_at_or_before_ } := by
    constructor
    · show m.cur_snap_.all_committed_before_ ≤ _
      cases adv with
      | false => simpa using h1
      | true =>
        have h3 : m.no_new_transactions_at_or_before_ + 1 ≤
            max m.no_new_transactions_at_or_before_ ts + 1 :=
          add_le_add_right (le_max_left _ _) 1
        simpa using le_trans h1 h3
    · intro t ht
      show m.cur_snap_.all_committed_before_ ≤ t
      exact h2 t (mem_map_fst_of_filter ht)
  unfold MvccManager.commitCore
  dsimp only
  split
  · exact adjust_step _ hInv1
  · exact ⟨hInv1, le_refl _⟩

theorem applyOp_step (m m2 : MvccManager) (op : MvccOp) (hInv : Inv m)
    (h : applyOp m op = some m2) :
    Inv m2 ∧
    m.cur_snap_.all_committed_before_ ≤ m2.cur_snap_.all_committed_before_ := by
  obtain ⟨h1, h2⟩ := hInv
  cases op with
  | startTxn =>
    simp only [applyOp, Option.some.injEq] at h
    subst h
    refine ⟨⟨h1, ?_⟩, le_refl _⟩
    intro t ht
    simp only [MvccManager.StartTransaction, inFlightTimes, List.map_append,
      List.map_cons, List.map_nil, List.mem_append, List.mem_singleton] at ht
    rcases ht with h3 | h3
    · exact h2 t h3
    · subst h3
      exact le_trans h1 (le_max_right _ _)
  | startTxnAtLatest slack =>
    simp only [applyOp, Option.some.injEq] at h
    subst h
    refine ⟨⟨h1, ?_⟩, le_refl _⟩
    intro t ht
    simp only [MvccManager.StartTransactionAtLatest, inFlightTimes,
      List.map_append, List.map_cons, List.map_nil, List.mem_append,
      List.mem_singleton] at ht
    rcases ht with h3 | h3
    · exact h2 t h3
    · subst h3
      exact le_trans h1 (le_max_right _ _)
  | startTxnAt ts =>
    simp only [applyOp] at h
    cases hst : m.StartTransactionAtHybridTime ts with
    | none =>
      rw [hst] at h
      dsimp only at h
      simp only [Option.some.injEq] at h
      subst h
      exact ⟨⟨h1, h2⟩, le_refl _⟩
    | some mm =>
      rw [hst] at h
      dsimp only at h
      simp only [Option.some.injEq] at h
      subst h
      unfold MvccManager.StartTransactionAtHybridTime at hst
      split_ifs at hst with hg1 hg2 hg3
      simp only [Option.some.injEq] at hst
      subst hst
      refine ⟨⟨h1, ?_⟩, le_refl _⟩
      intro t ht
      simp only [inFlightTimes, List.map_append, List.map_cons, List.map_nil,
        List.mem_append, List.mem_singleton] at ht
      rcases ht with h3 | h3
      · exact h2 t h3
      · rw [h3]
        show m.cur_snap_.all_committed_before_ ≤ ts
        exact le_trans h1 (Nat.succ_le_of_lt (Nat.not_le.mp hg1))
  | startApplying ts =>
    simp only [applyOp] at h
    unfold MvccManager.StartApplyingTransaction at h
    cases hlk : lookupState m.hybrid_times_in_flight_ ts with
    | none => rw [hlk] at h; exact Option.noConfusion h
    | some st =>
      rw [hlk] at h
      cases st with
      | Applying => exact Option.noConfusion h
      | InFlight =>
        dsimp only at h
        simp only [Option.some.injEq] at h
        subst h
        refine ⟨⟨h1, ?_⟩, le_refl _⟩
        intro t ht
        have h3 : t ∈ inFlightTimes m := by
          simpa [inFlightTimes, map_fst_setApplying] using ht
        exact h2 t h3
  | commit ts =>
    simp only [applyOp] at h
    unfold MvccManager.CommitTransaction at h
    split_ifs at h with hc
    cases hlk : lookupState m.hybrid_times_in_flight_ ts with
    | none => rw [hlk] at h; exact Option.noConfusion h
    | some st =>
      rw [hlk] at h
      cases st with
      | InFlight => exact Option.noConfusion h
      | Applying =>
        dsimp only at h
        simp only [Option.some.injEq] at h
        subst h
        exact commitCore_step m ts true ⟨h1, h2⟩
  | offlineCommit ts =>
    simp only [applyOp] at h
    unfold MvccManager.OfflineCommitTransaction at h
    cases hlk : lookupState m.hybrid_times_in_flight_ ts with
    | none => rw [hlk] at h; exact Option.noConfusion h
    | some st =>
      rw [hlk] at h
      cases st with
      | InFlight => exact Option.noConfusion h
      | Applying =>
        dsimp only at h
        simp only [Option.some.injEq] at h
        subst h
        exact commitCore_step m ts false ⟨h1, h2⟩
  | abort ts =>
    simp only [applyOp] at h
    unfold MvccManager.AbortTransaction at h
    cases hlk : lookupState m.hybrid_times_in_flight_ ts with
    | none => rw [hlk] at h; exact Option.noConfusion h
    | some st =>
      rw [hlk] at h
      cases st with
      | Applying => exact Option.noConfusion h
      | InFlight =>
        dsimp only at h
        simp only [Option.some.injEq] at h
        subst h
        refine ⟨⟨h1, ?_⟩, le_refl _⟩
        intro t ht
        exact h2 t (mem_map_fst_of_filter ht)
  | offlineAdjustSafeTime ts =>
    simp only [applyOp, Option.some.injEq] at h
    subst h
    have hInv1 : Inv
        { m with
          no_new_transactions_at_or_before_ :=
            max m.no_new_transactions_at_or_before_ ts } := by
      refine ⟨?_, ?_⟩
      · show m.cur_snap_.all_committed_before_ ≤ _
        exact le_trans h1 (add_le_add_right (le_max_left _ _) 1)
      · intro t ht
        exact h2 t ht
    exact adjust_step _ hInv1
  | clockUpdate ts =>
    simp only [applyOp, Option.some.injEq] at h
    subst h
    exact Inv_of_same m _ rfl rfl rfl ⟨h1, h2⟩
  | getMaxSafeTime =>
    simp only [applyOp, Option.some.injEq] at h
    subst h
    refine Inv_of_same m _ ?_ ?_ ?_ ⟨h1, h2⟩ <;>
    · unfold MvccManager.GetMaxSafeTimeToReadAt
      dsimp only
      split
      · rfl
      · split <;> rfl
  | areAllCommitted ts =>
    simp only [applyOp, Option.some.injEq] at h
    subst h
    refine Inv_of_same m _ ?_ ?_ ?_ ⟨h1, h2⟩ <;>
    · unfold MvccManager.AreAllTransactionsCommittedUnlocked
      dsimp only
      split <;> rfl
  | waitClean ts =>
    simp only [applyOp, Option.some.injEq] at h
    subst h
    refine Inv_of_same m _ ?_ ?_ ?_ ⟨h1, h2⟩ <;>
    · unfold MvccManager.WaitForCleanSnapshotAtHybridTime
        MvccManager.AreAllTransactionsCommittedUnlocked
      dsimp only
      split <;> rfl

theorem applyOps_step (ops : List MvccOp) (m m2 : MvccManager) (hInv : Inv m)
    (h : applyOps m ops = some m2) :
    Inv m2 ∧
    m.cur_snap_.all_committed_before_ ≤ m2.cur_snap_.all_committed_before_ := by
  induction ops generalizing m with
  | nil =>
    unfold applyOps at h
    simp only [Option.some.injEq] at h
    subst h
    exact ⟨hInv, le_refl _⟩
  | cons op rest ih =>
    unfold applyOps at h
    cases hop : applyOp m op with
    | none => rw [hop] at h; exact Option.noConfusion h
    | some mm =>
      rw [hop] at h
      dsimp only at h
      obtain ⟨hi, hle⟩ := applyOp_step m mm op hInv hop
      obtain ⟨hi2, hle2⟩ := ih mm hi h
      exact ⟨hi2, le_trans hle hle2⟩

theorem commit_eq_commitCore (m m2 : MvccManager) (ts : HybridTime)
    (h : m.CommitTransaction ts = some m2) : m2 = m.commitCore ts true := by
  unfold MvccManager.CommitTransaction at h
  split_ifs at h
  cases hlk : lookupState m.hybrid_times_in_flight_ ts with
  | none => rw [hlk] at h; exact Option.noConfusion h
  | some st =>
    rw [hlk] at h
    cases st with
    | InFlight => exact Option.noConfusion h
    | Applying =>
      dsimp only at h
      simp only [Option.some.injEq] at h
      exact h.symm

theorem offlineCommit_eq_commitCore (m m2 : MvccManager) (ts : HybridTime)
    (h : m.OfflineCommitTransaction ts = some m2) :
    m2 = m.commitCore ts false := by
  unfold MvccManager.OfflineCommitTransaction at h
  cases hlk : lookupState m.hybrid_times_in_flight_ ts with
  | none => rw [hlk] at h; exact Option.noConfusion h
  | some st =>
    rw [hlk] at h
    cases st with
    | InFlight => exact Option.noConfusion h
    | Applying =>
      dsimp only at h
      simp only [Option.some.injEq] at h
      exact h.symm

theorem abort_result (m m2 : MvccManager) (ts : HybridTime)
    (h : m.AbortTransaction ts = some m2) :
    m2 = { m with
           hybrid_times_in_flight_ := removeTs m.hybrid_times_in_flight_ ts } := by
  unfold MvccManager.AbortTransaction at h
  cases hlk : lookupState m.hybrid_times_in_flight_ ts with
  | none => rw [hlk] at h; exact Option.noConfusion h
  | some st =>
    rw [hlk] at h
    cases st with
    | Applying => exact Option.noConfusion h
    | InFlight =>
      dsimp only at h
      simp only [Option.some.injEq] at h
      exact h.symm

/-- C1: for every snapshot satisfying the data-model invariant and every
timestamp ts, IsCommitted(ts) is true when ts is below
`all_committed_before_`, false when ts is at or above
`none_committed_at_or_after_`, and otherwise a membership test in the
committed set; and a point-in-time snapshot built from a single timestamp t
reports IsCommitted(ts) true exactly when ts < t. -/
theorem C1_IsCommitted_contract (s : MvccSnapshot) (ts t : HybridTime)
    (hinv : s.all_committed_before_ ≤ s.none_committed_at_or_after_) :
    (ts < s.all_committed_before_ → s.IsCommitted ts = true) ∧
    (s.none_committed_at_or_after_ ≤ ts → s.IsCommitted ts = false) ∧
    (s.all_committed_before_ ≤ ts → ts < s.none_committed_at_or_after_ →
      s.IsCommitted ts = s.committed_hybrid_times_.contains ts) ∧
    (MvccSnapshot.ofHybridTime t).IsCommitted ts = decide (ts < t) := by
  refine ⟨?_, ?_, ?_, ?_⟩
  · intro hlt
    unfold MvccSnapshot.IsCommitted
    rw [if_pos hlt]
  · intro hge
    unfold MvccSnapshot.IsCommitted
    rw [if_neg (Nat.not_lt.mpr (le_trans hinv hge)), if_pos hge]
  · intro hge hlt
    unfold MvccSnapshot.IsCommitted
    rw [if_neg (Nat.not_lt.mpr hge), if_neg (Nat.not_le.mpr hlt)]
  · unfold MvccSnapshot.IsCommitted MvccSnapshot.ofHybridTime
    dsimp only
    by_cases hlt : ts < t
    · simp [hlt]
    · simp [hlt, Nat.not_lt.mp hlt]

theorem C1_IsCommitted_contract_witness :
    (5 : HybridTime) ≤ 9 ∧
    (MvccSnapshot.mk 5 [7] 9).IsCommitted 3 = true ∧
    (MvccSnapshot.mk 5 [7] 9).IsCommitted 10 = false ∧
    (MvccSnapshot.mk 5 [7] 9).IsCommitted 7 =
      (MvccSnapshot.mk 5 [7] 9).committed_hybrid_times_.contains 7 ∧
    (MvccSnapshot.ofHybridTime 4).IsCommitted 2 = decide ((2 : Nat) < 4) :=
  ⟨by decide,
   (C1_IsCommitted_contract ⟨5, [7], 9⟩ 3 4 (by decide)).1 (by decide),
   (C1_IsCommitted_contract ⟨5, [7], 9⟩ 10 4 (by decide)).2.1 (by decide),
   (C1_IsCommitted_contract ⟨5, [7], 9⟩ 7 4 (by decide)).2.2.1 (by decide)
     (by decide),
   (C1_IsCommitted_contract ⟨5, [7], 9⟩ 2 4 (by decide)).2.2.2⟩

/-- C3: for every snapshot and timestamp ts,
MayHaveUncommittedTransactionsAtOrBefore(ts) is true unless either ts is below
the watermark, or the committed set is exactly the singleton holding the
watermark and ts is at or below the watermark; in particular a snapshot with
watermark W and committed set &#123;W&#125; reports false at W. -/
theorem C3_MayHaveUncommitted_contract (s : MvccSnapshot) (ts W n : HybridTime) :
    (s.MayHaveUncommittedTransactionsAtOrBefore ts = true ↔
      ¬(ts < s.all_committed_before_ ∨
        (s.committed_hybrid_times_ = [s.all_committed_before_] ∧
          ts ≤ s.all_committed_before_))) ∧
    (MvccSnapshot.mk W [W] n).MayHaveUncommittedTransactionsAtOrBefore W
      = false := by
  constructor
  · unfold MvccSnapshot.MayHaveUncommittedTransactionsAtOrBefore
    simp
    intro _
    exact Iff.symm imp_iff_not_or
  · unfold MvccSnapshot.MayHaveUncommittedTransactionsAtOrBefore
    simp

/-- C9: commitment is monotone across the coordinator lifetime: for
snapshots taken along any pair of consecutive histories from a fresh
coordinator, the watermark never decreases, and a timestamp t1 committed in
the earlier snapshot while that snapshot is clean at some t2 above t1 is still
committed in the later snapshot. -/
theorem C9_commit_monotonicity (c : LogicalClock) (ops1 ops2 : List MvccOp)
    (m1 m2 : MvccManager) (t1 t2 : HybridTime)
    (h1 : applyOps (MvccManager.Create c) ops1 = some m1)
    (h2 : applyOps m1 ops2 = some m2) :
    m1.cur_snap_.all_committed_before_ ≤ m2.cur_snap_.all_committed_before_ ∧
    (t1 < t2 → m1.cur_snap_.IsCommitted t1 = true →
      m1.cur_snap_.MayHaveUncommittedTransactionsAtOrBefore t2 = false →
      m2.cur_snap_.IsCommitted t1 = true) := by
  obtain ⟨hi1, hle0⟩ := applyOps_step ops1 _ m1 (Inv_init c) h1
  obtain ⟨hi2, hle⟩ := applyOps_step ops2 m1 m2 hi1 h2
  refine ⟨hle, ?_⟩
  intro hlt hc hclean
  unfold MvccSnapshot.MayHaveUncommittedTransactionsAtOrBefore at hclean
  simp only [Bool.not_eq_false', Bool.or_eq_true, decide_eq_true_eq,
    Bool.and_eq_true, beq_iff_eq] at hclean
  have ht1 : t1 < m1.cur_snap_.all_committed_before_ := by
    rcases hclean with hco | hco
    · exact lt_trans hlt hco
    · exact lt_of_lt_of_le hlt hco.2
  have ht2 : t1 < m2.cur_snap_.all_committed_before_ := lt_of_lt_of_le ht1 hle
  unfold MvccSnapshot.IsCommitted
  rw [if_pos ht2]

theorem C9_commit_monotonicity_witness :
    applyOps (MvccManager.Create ⟨0⟩) c9OpsA = some mC9a ∧
    applyOps mC9a c9OpsB = some mC9b ∧
    (mC9a.cur_snap_.all_committed_before_ ≤
        mC9b.cur_snap_.all_committed_before_ ∧
      ((0 : HybridTime) < 1 → mC9a.cur_snap_.IsCommitted 0 = true →
        mC9a.cur_snap_.MayHaveUncommittedTransactionsAtOrBefore 1 = false →
        mC9b.cur_snap_.IsCommitted 0 = true)) :=
  ⟨by decide, by decide,
   C9_commit_monotonicity ⟨0⟩ c9OpsA c9OpsB mC9a mC9b 0 1 (by decide)
     (by decide)⟩

/-- C2 counterexample: after begin 1,2,3, abort 1 and start-applying 2, the
watermark is 1 and timestamp 2 is Applying, so the claimed rule (ts differs
from the watermark, hence ts is inserted into the committed set) demands that
2 be a member of the committed set after Commit(2); instead the commit
advances the watermark to 3 and the committed set ends empty. -/
theorem C2_out_of_order_commit_counterexample :
    (applyOps mInit (beginThree ++ [MvccOp.abort 1, MvccOp.startApplying 2])).map
      (fun m => (m.cur_snap_.all_committed_before_,
        lookupState m.hybrid_times_in_flight_ 2)) =
      some (1, some TxnState.Applying) ∧
    (applyOps mInit c2AbortGap).map
      (fun m => (m.cur_snap_.committed_hybrid_times_.contains 2,
        m.cur_snap_.all_committed_before_)) = some (false, 3) := by
  refine ⟨?_, ?_⟩ <;> decide

/-- C2 (amended): when Commit(ts) applies to an Applying transaction, if ts is
not the minimum of the in-flight set the timestamp is appended to the
committed set and the watermark is unchanged; if ts is the minimum, the
watermark advances to the minimum of the remaining in-flight set capped at one
past the advanced safe time (one past the safe time when none remain) and
subsumed committed-set entries are dropped; and the concrete 1,2,3 scenario
committed in the order 2,3,1 passes through exactly the three stated snapshot
forms. -/
theorem C2_out_of_order_commit (m m2 : MvccManager) (ts : HybridTime)
    (h : m.CommitTransaction ts = some m2) :
    (listMin (inFlightTimes m) ≠ some ts →
      m2.cur_snap_.committed_hybrid_times_ =
        m.cur_snap_.committed_hybrid_times_ ++ [ts] ∧
      m2.cur_snap_.all_committed_before_ =
        m.cur_snap_.all_committed_before_) ∧
    (listMin (inFlightTimes m) = some ts →
      m2.cur_snap_.all_committed_before_ =
        (match listMin (List.map Prod.fst (removeTs m.hybrid_times_in_flight_ ts)) with
         | some e => min e (max m.no_new_transactions_at_or_before_ ts + 1)
         | none => max m.no_new_transactions_at_or_before_ ts + 1) ∧
      m2.cur_snap_.committed_hybrid_times_ =
        (m.cur_snap_.committed_hybrid_times_ ++ [ts]).filter
          (fun u => decide (m2.cur_snap_.all_committed_before_ ≤ u))) ∧
    ((applyOps mInit c2StageOne).map
      (fun mm => MvccSnapshot.render mm.cur_snap_) =
      some ("MvccSnapshot[committed=\x7bT|T < 1 or (T in \x7b2\x7d)\x7d]")) ∧
    ((applyOps mInit c2StageTwo).map
      (fun mm => MvccSnapshot.render mm.cur_snap_) =
      some ("MvccSnapshot[committed=\x7bT|T < 1 or (T in \x7b2,3\x7d)\x7d]")) ∧
    ((applyOps mInit c2StageThree).map
      (fun mm => MvccSnapshot.render mm.cur_snap_) =
      some ("MvccSnapshot[committed=\x7bT|T < 4\x7d]")) := by
  have he := commit_eq_commitCore m m2 ts h
  subst he
  refine ⟨?_, ?_, by decide, by decide, by decide⟩
  · intro hne
    unfold MvccManager.commitCore
    dsimp only
    rw [if_neg hne]
    exact ⟨rfl, rfl⟩
  · intro heq
    unfold MvccManager.commitCore
    dsimp only
    rw [if_pos heq]
    exact ⟨rfl, rfl⟩

theorem C2_out_of_order_commit_witness :
    mW2.CommitTransaction 2 = some (mW2.commitCore 2 true) ∧
    listMin (inFlightTimes mW2) ≠ some 2 ∧
    (mW2.commitCore 2 true).cur_snap_.committed_hybrid_times_ =
      mW2.cur_snap_.committed_hybrid_times_ ++ [2] :=
  ⟨by decide, by decide,
   ((C2_out_of_order_commit mW2 (mW2.commitCore 2 true) 2 (by decide)).1
     (by decide)).1⟩

/-- C4: every out-of-sequence lifecycle call is fatal (modelled as none):
StartApplying on an absent or already-Applying timestamp, Commit on an absent
or still-InFlight timestamp, Abort on an Applying timestamp, Abort after a
successful Commit, and Commit after a successful Abort. -/
theorem C4_illegal_transitions_fatal (m m2 : MvccManager) (ts : HybridTime) :
    (lookupState m.hybrid_times_in_flight_ ts = none →
      m.StartApplyingTransaction ts = none) ∧
    (lookupState m.hybrid_times_in_flight_ ts = some TxnState.Applying →
      m.StartApplyingTransaction ts = none) ∧
    (lookupState m.hybrid_times_in_flight_ ts = none →
      m.CommitTransaction ts = none) ∧
    (lookupState m.hybrid_times_in_flight_ ts = some TxnState.InFlight →
      m.CommitTransaction ts = none) ∧
    (lookupState m.hybrid_times_in_flight_ ts = some TxnState.Applying →
      m.AbortTransaction ts = none) ∧
    (m.CommitTransaction ts = some m2 → m2.AbortTransaction ts = none) ∧
    (m.AbortTransaction ts = some m2 → m2.CommitTransaction ts = none) := by
  refine ⟨?_, ?_, ?_, ?_, ?_, ?_, ?_⟩
  · intro hl
    unfold MvccManager.StartApplyingTransaction
    rw [hl]
  · intro hl
    unfold MvccManager.StartApplyingTransaction
    rw [hl]
  · intro hl
    unfold MvccManager.CommitTransaction
    rw [hl]
    split <;> rfl
  · intro hl
    unfold MvccManager.CommitTransaction
    rw [hl]
    split <;> rfl
  · intro hl
    unfold MvccManager.AbortTransaction
    rw [hl]
  · intro h
    have he := commit_eq_commitCore m m2 ts h
    subst he
    unfold MvccManager.AbortTransaction
    rw [commitCore_in_flight, lookupState_removeTs]
  · intro h
    have he := abort_result m m2 ts h
    subst he
    unfold MvccManager.CommitTransaction
    dsimp only
    rw [lookupState_removeTs]
    split <;> rfl

theorem C4_illegal_transitions_fatal_witness :
    lookupState mW4.hybrid_times_in_flight_ 3 = none ∧
    mW4.StartApplyingTransaction 3 = none ∧
    lookupState mW4.hybrid_times_in_flight_ 2 = some TxnState.Applying ∧
    mW4.StartApplyingTransaction 2 = none ∧
    mW4.AbortTransaction 2 = none ∧
    mW4.CommitTransaction 2 = some (mW4.commitCore 2 true) ∧
    (mW4.commitCore 2 true).AbortTransaction 2 = none ∧
    lookupState mW4.hybrid_times_in_flight_ 1 = some TxnState.InFlight ∧
    mW4.CommitTransaction 1 = none :=
  ⟨by decide,
   (C4_illegal_transitions_fatal mW4 mW4 3).1 (by decide),
   by decide,
   (C4_illegal_transitions_fatal mW4 mW4 2).2.1 (by decide),
   (C4_illegal_transitions_fatal mW4 mW4 2).2.2.2.2.1 (by decide),
   by decide,
   (C4_illegal_transitions_fatal mW4 (mW4.commitCore 2 true) 2).2.2.2.2.2.1
     (by decide),
   by decide,
   (C4_illegal_transitions_fatal mW4 mW4 1).2.2.2.1 (by decide)⟩

/-- C5: OfflineCommit leaves the safe-time watermark unchanged (so a
subsequent snapshot still reports an earlier timestamp uncommitted), while
OfflineAdjustSafeTime(ts) sets the watermark to max(current, ts); after the
explicit adjustment, timestamps below the offline-committed transaction are
reported committed. -/
theorem C5_offline_commit_frame (m m2 : MvccManager) (ts a : HybridTime)
    (h : m.OfflineCommitTransaction ts = some m2) :
    m2.no_new_transactions_at_or_before_ =
      m.no_new_transactions_at_or_before_ ∧
    (m.OfflineAdjustSafeTime a).no_new_transactions_at_or_before_ =
      max m.no_new_transactions_at_or_before_ a ∧
    (applyOps mInit c5OfflinePart).map
      (fun mm => (mm.cur_snap_.IsCommitted 40,
        mm.no_new_transactions_at_or_before_)) = some (false, kMin) ∧
    (applyOps mInit c5OfflineFull).map
      (fun mm => mm.cur_snap_.IsCommitted 40) = some true := by
  refine ⟨?_, ?_, by decide, by decide⟩
  · have he := offlineCommit_eq_commitCore m m2 ts h
    subst he
    exact commitCore_nntab_false m ts
  · rfl

theorem C5_offline_commit_frame_witness :
    mW5.OfflineCommitTransaction 50 = some (mW5.commitCore 50 false) ∧
    (mW5.commitCore 50 false).no_new_transactions_at_or_before_ =
      mW5.no_new_transactions_at_or_before_ :=
  ⟨by decide,
   (C5_offline_commit_frame mW5 (mW5.commitCore 50 false) 50 0 (by decide)).1⟩

/-- C6 counterexample: after begin 1 and 2, timestamp 1 is aborted (removed
from the in-flight set and not reported committed at that point), yet once 2
commits the watermark sweeps to 3 and a later snapshot reports the aborted
timestamp 1 as committed — refuting the claim that an aborted timestamp is
never subsequently reported committed. -/
theorem C6_abort_frame_counterexample :
    (applyOps mInit [MvccOp.startTxn, MvccOp.startTxn, MvccOp.abort 1]).map
      (fun m => (lookupState m.hybrid_times_in_flight_ 1,
        m.cur_snap_.IsCommitted 1)) = some (none, false) ∧
    (applyOps mInit c6AbortSweep).map (fun m => m.cur_snap_.IsCommitted 1) =
      some true := by
  refine ⟨?_, ?_⟩ <;> decide

/-- C6 (amended): aborting a begun InFlight transaction — explicitly or by a
scoped handle released without commit — removes it from the in-flight set
while leaving the snapshot, the safe-time watermark and the clock unchanged,
and does not add it to the committed set; a later snapshot may however report
the aborted timestamp committed once ordinary commits sweep the watermark past
it. -/
theorem C6_abort_frame (m m2 : MvccManager) (t : ScopedWriteTransaction)
    (ts : HybridTime) (h : m.AbortTransaction ts = some m2) :
    m2.cur_snap_ = m.cur_snap_ ∧
    m2.no_new_transactions_at_or_before_ =
      m.no_new_transactions_at_or_before_ ∧
    m2.clock_ = m.clock_ ∧
    lookupState m2.hybrid_times_in_flight_ ts = none ∧
    (t.committed = false → t.release m = m.AbortTransaction t.hybrid_time) ∧
    (c6ScopedResult.map (fun mm =>
        (mm.cur_snap_.IsCommitted 1, mm.cur_snap_.IsCommitted 2)) =
      some (true, false)) := by
  have he := abort_result m m2 ts h
  subst he
  refine ⟨rfl, rfl, rfl, ?_, ?_, by decide⟩
  · exact lookupState_removeTs m.hybrid_times_in_flight_ ts
  · intro hc
    unfold ScopedWriteTransaction.release
    simp [hc]

theorem C6_abort_frame_witness :
    mW6.AbortTransaction 1 =
      some (MvccManager.mk ⟨3⟩ MvccSnapshot.initial [] 0) ∧
    (MvccManager.mk ⟨3⟩ MvccSnapshot.initial [] 0).cur_snap_ =
      mW6.cur_snap_ :=
  ⟨by decide,
   (C6_abort_frame mW6 (MvccManager.mk ⟨3⟩ MvccSnapshot.initial [] 0)
     ⟨1, false⟩ 1 (by decide)).1⟩

/-- C7 counterexample: after begin 1 and 2 and abort of 1, an in-flight
transaction exists with minimum timestamp 2, so the claim requires
GetMaxSafeTimeToReadAt to return 2 - 1 = 1; since nothing has ever committed
the model returns the minimum sentinel 0 instead. -/
theorem C7_max_safe_time_counterexample :
    (applyOps mInit c7AbortOnly).map
      (fun m => (listMin (inFlightTimes m), (m.GetMaxSafeTimeToReadAt).1)) =
      some (some 2, 0) ∧ (2 : HybridTime) - 1 ≠ 0 := by
  refine ⟨?_, ?_⟩ <;> decide

/-- C7 (amended): GetMaxSafeTimeToReadAt returns the minimum sentinel whenever
no transaction has ever committed (safe time still at the sentinel), even if
transactions are in flight; otherwise it returns one less than the minimum
in-flight timestamp when any transaction is in flight, and the strictly
increasing clock time when none is; two successive calls with nothing in
flight yield a non-decreasing result. -/
theorem getMaxSafe_kMin_case (m : MvccManager)
    (hn : m.no_new_transactions_at_or_before_ = kMin) :
    m.GetMaxSafeTimeToReadAt = (kMin, m) := by
  unfold MvccManager.GetMaxSafeTimeToReadAt
  rw [if_pos hn]

theorem getMaxSafe_clock_case (m : MvccManager)
    (hn : m.no_new_transactions_at_or_before_ ≠ kMin)
    (hl : listMin (inFlightTimes m) = none) :
    m.GetMaxSafeTimeToReadAt =
      (m.clock_.now_ + 1, { m with clock_ := ⟨m.clock_.now_ + 1⟩ }) := by
  unfold MvccManager.GetMaxSafeTimeToReadAt LogicalClock.Now
  rw [if_neg hn, hl]

theorem C7_max_safe_time (m : MvccManager) (e : HybridTime) :
    (m.no_new_transactions_at_or_before_ = kMin →
      (m.GetMaxSafeTimeToReadAt).1 = kMin) ∧
    (m.no_new_transactions_at_or_before_ ≠ kMin →
      listMin (inFlightTimes m) = some e →
      (m.GetMaxSafeTimeToReadAt).1 = e - 1) ∧
    (m.no_new_transactions_at_or_before_ ≠ kMin →
      listMin (inFlightTimes m) = none →
      (m.GetMaxSafeTimeToReadAt).1 = m.clock_.now_ + 1 ∧
      ((m.GetMaxSafeTimeToReadAt).2.GetMaxSafeTimeToReadAt).1 =
        m.clock_.now_ + 2) ∧
    (listMin (inFlightTimes m) = none →
      (m.GetMaxSafeTimeToReadAt).1 ≤
        ((m.GetMaxSafeTimeToReadAt).2.GetMaxSafeTimeToReadAt).1) := by
  refine ⟨?_, ?_, ?_, ?_⟩
  · intro hn
    rw [getMaxSafe_kMin_case m hn]
  · intro hn hl
    unfold MvccManager.GetMaxSafeTimeToReadAt
    rw [if_neg hn, hl]
  · intro hn hl
    have h4 := getMaxSafe_clock_case m hn hl
    have h5 := getMaxSafe_clock_case
      { m with clock_ := ⟨m.clock_.now_ + 1⟩ } hn hl
    constructor
    · rw [h4]
    · rw [h4]
      dsimp only
      rw [h5]
  · intro hl
    by_cases hn : m.no_new_transactions_at_or_before_ = kMin
    · have h4 := getMaxSafe_kMin_case m hn
      rw [h4]
      dsimp only
      rw [h4]
    · have h4 := getMaxSafe_clock_case m hn hl
      have h5 := getMaxSafe_clock_case
        { m with clock_ := ⟨m.clock_.now_ + 1⟩ } hn hl
      rw [h4]
      dsimp only
      rw [h5]
      exact Nat.le_succ _

theorem C7_max_safe_time_witness :
    (mW7.GetMaxSafeTimeToReadAt).1 = mW7.clock_.now_ + 1 ∧
    (mInit.GetMaxSafeTimeToReadAt).1 = kMin :=
  ⟨((C7_max_safe_time mW7 0).2.2.1 (by decide) (by decide)).1,
   (C7_max_safe_time mInit 0).1 (by decide)⟩

/-- C8 counterexample: on a fresh coordinator whose clock has reached 1,
WaitForCleanSnapshotAt(1) succeeds even though the watermark equals 1 (so the
claimed condition all_committed_before greater than ts fails): with nothing in
flight the wait predicate consults the advancing clock instead. -/
theorem C8_wait_for_clean_snapshot_counterexample :
    (applyOps mInit [MvccOp.clockUpdate 1]).map (fun m =>
      (m.cur_snap_.all_committed_before_, inFlightTimes m,
       ((m.WaitForCleanSnapshotAtHybridTime 1).1).isSome)) =
      some (1, [], true) ∧ ¬((1 : HybridTime) < 1) := by
  refine ⟨?_, ?_⟩ <;> decide

/-- C8 (amended): WaitForCleanSnapshotAt(ts) succeeds exactly when, with
nothing in flight, ts is below a freshly obtained clock value, or, with
transactions in flight, the snapshot reports no possibly-uncommitted
transaction at or before ts; otherwise it returns the distinguishable timeout
result (none).  In scenario E, with 1,2,3 in flight a wait at 2 still times
out after 1 and 3 commit and succeeds with the clean snapshot once 2
commits; a wait at an in-flight timestamp times out. -/
theorem C8_wait_for_clean_snapshot (m : MvccManager) (ts : HybridTime) :
    ((m.WaitForCleanSnapshotAtHybridTime ts).1.isSome =
      (if (inFlightTimes m).isEmpty then decide (ts < m.clock_.now_ + 1)
       else !(m.cur_snap_.MayHaveUncommittedTransactionsAtOrBefore ts))) ∧
    ((applyOps mInit c8StageOne).map
      (fun mm => (mm.WaitForCleanSnapshotAtHybridTime 2).1) = some none) ∧
    ((applyOps mInit c8StageTwo).map
      (fun mm => (mm.WaitForCleanSnapshotAtHybridTime 2).1) = some none) ∧
    ((applyOps mInit c8StageThree).map
      (fun mm => ((mm.WaitForCleanSnapshotAtHybridTime 2).1).map
        (fun s => (s, MvccSnapshot.is_clean s))) =
      some (some (MvccSnapshot.mk 4 [] 4, true))) ∧
    ((applyOps mInit [MvccOp.startTxn]).map
      (fun mm => (mm.WaitForCleanSnapshotAtHybridTime 1).1) = some none) := by
  refine ⟨?_, by decide, by decide, by decide, by decide⟩
  unfold MvccManager.WaitForCleanSnapshotAtHybridTime
    MvccManager.AreAllTransactionsCommittedUnlocked LogicalClock.Now
  dsimp only
  by_cases hemp : (inFlightTimes m).isEmpty = true
  · rw [if_pos hemp, if_pos hemp]
    dsimp only
    cases hd : decide (ts < m.clock_.now_ + 1) <;> simp [hd]
  · rw [if_neg hemp, if_neg hemp]
    dsimp only
    cases hd : m.cur_snap_.MayHaveUncommittedTransactionsAtOrBefore ts <;>
      simp [hd]

/-- C10: offline clean-time coalescing: with the clock at 20, after
replay-beginning 10 and 15, adjusting safe time to 15 and offline-committing
15 then 10 (each after StartApplying), the live snapshot is exactly the clean
snapshot rendering as committed = all T below 16. -/
theorem C10_offline_clean_time_coalescing :
    (applyOps mInit c10Trace).map (fun m => MvccSnapshot.render m.cur_snap_) =
      some ("MvccSnapshot[committed=\x7bT|T < 16\x7d]") ∧
    (applyOps mInit c10Trace).map (fun m => m.cur_snap_) =
      some (MvccSnapshot.mk 16 [] 16) ∧
    (applyOps mInit c10Trace).map
      (fun m => m.no_new_transactions_at_or_before_) = some 15 := by
  refine ⟨?_, ?_, ?_⟩ <;> decide

end YbMvcc
